import Mathlib

/-!
Verification of the sensor storage core of `src/server.go`.

The embedding models the non-HTTP part of the program: the `Reading` /
`Readings` data types, the line codec used by `write`/`read`, the
per-sensor append-only files, the `write` and `read` functions, and the
single-worker loop `readWriteRoutine` that serializes storage operations.
Go strings, file contents and byte slices are modeled as `List Char`
(UTF-8 byte order coincides with code-point order, so Go byte-wise
string comparison is code-point lexicographic comparison here).
-/

namespace Sensor

/-- Characters of a Go string / byte slice: file contents, lines and
timestamps are all `List Char`. -/
abbrev Str := List Char

/-- Model of Go's `float64` together with the two `strconv` library
functions the source calls on it: `fmt.Fprintln`'s rendering of a
`float64` (`strconv.FormatFloat(v, 'g', -1, 64)`), and
`strconv.ParseFloat(s, 64)` with failure as `none`.  These library
functions are external to the repository, so they enter the embedding as
parameters; the properties their documentation guarantees (shortest
round-tripping output, no space or newline in the output) appear as
hypotheses of the theorems that need them. -/
structure FloatModel where
  F : Type
  zero : F
  fmt : F → Str
  parse : Str → Option F

/-- src/server.go lines 24-27: one observation. -/
structure Reading (F : Type) where
  Timestamp : Str
  Value : F
deriving DecidableEq

/-- src/server.go lines 29-32: a sensor id plus its readings. -/
structure Readings (F : Type) where
  Sensor_id : Nat
  Readings : List (Reading F)
deriving DecidableEq

/-- Go `strings.Split(s, sep)` for a one-character separator (the source
uses `strings.Split(scanner.Text(), " ")`); also the `'\n'` splitting
underlying `bufio.Scanner`.  As in Go, `Split("") = [""]` and the result
is never empty. -/
def splitOnChar (sep : Char) : Str → List Str
  | [] => [[]]
  | c :: cs =>
    if c = sep then [] :: splitOnChar sep cs
    else
      match splitOnChar sep cs with
      | [] => [[c]]
      | h :: t => (c :: h) :: t

/-- Go `dropCR` from `bufio.ScanLines`: strip one trailing carriage
return from a scanned line. -/
def dropCR (l : Str) : Str :=
  if l.getLast? = some '\r' then l.dropLast else l

/-- The sequence of tokens produced by `bufio.Scanner` with `ScanLines`
on a file content: split on `'\n'`, drop the empty token a trailing
newline would produce (the scanner emits no final empty line), and strip
a trailing `'\r'` from each line. -/
def dropTrailingEmpty (parts : List Str) : List Str :=
  if parts.getLast? = some [] then parts.dropLast else parts

def scannerLines (content : Str) : List Str :=
  (dropTrailingEmpty (splitOnChar '\n' content)).map dropCR

/-- The line `fmt.Fprintln(writer, reading.Timestamp, reading.Value)`
writes for one reading, without the terminating newline:
`"<timestamp> <value>"` (src/server.go line 116). -/
def encodeLine (M : FloatModel) (r : Reading M.F) : Str :=
  r.Timestamp ++ ' ' :: M.fmt r.Value

/-- One iteration of the scan loop of `read` (src/server.go lines
133-139): split the line on `" "`, take field 0 as the timestamp and
parse field 1 as a float, the parse error being discarded so that an
unparsable value yields the zero value.  A line whose split has fewer
than two fields makes `split[1]` an out-of-range index, which crashes
the routine in Go; that crash is modeled as `none`. -/
def decodeLine (M : FloatModel) (line : Str) : Option (Reading M.F) :=
  match splitOnChar ' ' line with
  | t :: v :: _ => some ⟨t, (M.parse v).getD M.zero⟩
  | _ => none

/-- The whole scan loop: decode every scanned line in order; any line on
which `decodeLine` crashes crashes the whole read. -/
def decodeLines (M : FloatModel) : List Str → Option (List (Reading M.F))
  | [] => some []
  | l :: ls =>
    match decodeLine M l with
    | none => none
    | some r =>
      match decodeLines M ls with
      | none => none
      | some rs => some (r :: rs)

/-- The on-disk state: file name to file content, `none` when the file
does not exist. -/
abbrev FS := Str → Option Str

def updateFS (fs : FS) (name : Str) (c : Str) : FS :=
  fun g => if g = name then some c else fs g

/-- The file name `fmt.Sprintf("%s%d", *dataDir, sensorId)`
(src/server.go lines 107 and 125): data directory and decimal sensor
id, no separator. -/
def filename (dataDir : Str) (sensorId : Nat) : Str :=
  dataDir ++ (Nat.repr sensorId).data

/-- The operating-system behaviour the file operations run against:
whether `os.OpenFile`/`os.Open` fails on a given name, and whether the
buffered write to a given name fails, in which case only a prefix of the
buffer (of the given length) reaches the file.  The source discards
write/flush errors, so only the prefix effect of a failed flush is
observable. -/
structure Env where
  openRead : Str → Option String
  openWrite : Str → Option String
  flush : Str → Option Nat

/-- The environment in which no file operation fails. -/
def noErr : Env :=
  { openRead := fun _ => none, openWrite := fun _ => none, flush := fun _ => none }

/-- src/server.go lines 106-121, `write`: open the sensor's file with
`O_APPEND|O_CREATE|O_WRONLY` (return the error if opening fails, file
system unchanged), print one line per reading into a `bufio.Writer` in
order, flush, and return nil.  The results of `fmt.Fprintln` and
`writer.Flush()` are discarded by the source, so a failed flush still
returns success and leaves whatever prefix of the buffer the OS wrote. -/
def write (M : FloatModel) (env : Env) (fs : FS) (dataDir : Str) (b : Readings M.F) :
    Except String Unit × FS :=
  match env.openWrite (filename dataDir b.Sensor_id) with
  | some e => (Except.error e, fs)
  | none =>
    let buf := b.Readings.foldl (fun acc r => acc ++ encodeLine M r ++ ['\n']) []
    let appended :=
      match env.flush (filename dataDir b.Sensor_id) with
      | some k => buf.take k
      | none => buf
    (Except.ok (),
     updateFS fs (filename dataDir b.Sensor_id)
       ((fs (filename dataDir b.Sensor_id)).getD [] ++ appended))

/-- src/server.go lines 124-144, `read`: open the sensor's file; ANY
open error (absence, permissions, ...) yields an empty batch for that
sensor.  Otherwise scan the file line by line, decode each line, sort by
timestamp and return the batch.  The sort the source performs is
`sort.Slice(readings, less-on-Timestamp)`, a call into Go's sort
library; it enters the embedding as the parameter `sortF`, constrained
in the theorems by the library's contract (the result is a permutation
ordered by the supplied comparison).  `none` models the crash of the
scan loop on a line without a space. -/
def read (M : FloatModel) (env : Env) (fs : FS) (dataDir : Str) (sensorId : Nat)
    (sortF : List (Reading M.F) → List (Reading M.F)) : Option (Readings M.F) :=
  match env.openRead (filename dataDir sensorId), fs (filename dataDir sensorId) with
  | some _, _ => some ⟨sensorId, []⟩
  | none, none => some ⟨sensorId, []⟩
  | none, some content =>
    match decodeLines M (scannerLines content) with
    | none => none
    | some rs => some ⟨sensorId, sortF rs⟩

/-- The write arm of `readWriteRoutine` (src/server.go lines 92-100)
answers the blocked caller with 201 Created on nil error and with an
"Error Writing" response otherwise. -/
inductive WriteResp
  | created
  | errorWriting
deriving DecidableEq

/-- One pass of the worker loop over a queued write message — run
`write`, report the outcome to the caller. -/
def submitWrite (M : FloatModel) (env : Env) (fs : FS) (dataDir : Str) (b : Readings M.F) :
    WriteResp × FS :=
  match write M env fs dataDir b with
  | (Except.error _, fs') => (WriteResp.errorWriting, fs')
  | (Except.ok _, fs') => (WriteResp.created, fs')

/-- The worker loop consuming a queue of write messages one at a time,
each processed to completion before the next starts (src/server.go lines
83-103): since the single goroutine performs all file operations
sequentially, any concurrent set of submitWrite calls is observed by the
loop as some arrival order, which the list argument ranges over. -/
def processWrites (M : FloatModel) (env : Env) (dataDir : Str) :
    List (Readings M.F) → FS → FS
  | [], fs => fs
  | b :: rest, fs =>
    processWrites M env dataDir rest (submitWrite M env fs dataDir b).2

/-- Concatenation of newline-terminated lines: the file content a
sequence of appended lines produces. -/
def joinLines : List Str → Str
  | [] => []
  | l :: ls => l ++ '\n' :: joinLines ls

/-- All readings of a sequence of batches, in order. -/
def allReadings {F : Type} : List (Readings F) → List (Reading F)
  | [] => []
  | b :: bs => b.Readings ++ allReadings bs

/-- The block of text one `write` call appends for a list of readings. -/
def encBlock (M : FloatModel) (rs : List (Reading M.F)) : Str :=
  joinLines (rs.map (encodeLine M))

/-- Go `<` on strings: byte-wise (here code-point-wise) lexicographic
order — the comparison `sort.Slice` is given on line 141. -/
def strLt : Str → Str → Bool
  | _, [] => false
  | [], _ :: _ => true
  | a :: as, b :: bs =>
    if a < b then true else if b < a then false else strLt as bs

/-- What `sort.Slice(readings, less)` guarantees about the order of its
result: no later element is strictly below an earlier one, i.e. the
timestamps are pairwise in non-decreasing Go string order. -/
abbrev SortedTs {F : Type} (l : List (Reading F)) : Prop :=
  l.Pairwise (fun a b => strLt b.Timestamp a.Timestamp = false)

/-- A reading the on-disk codec can represent faithfully: timestamp and
rendered value free of space, newline and carriage return (the spec
forbids space/newline in timestamps, and Go's float formatting emits
none of the three), and the rendered value parses back to the value
(the documented strconv.FormatFloat round-trip guarantee). -/
abbrev GoodReading (M : FloatModel) (r : Reading M.F) : Prop :=
  (∀ c ∈ r.Timestamp, c ≠ ' ' ∧ c ≠ '\n' ∧ c ≠ '\r') ∧
  (∀ c ∈ M.fmt r.Value, c ≠ ' ' ∧ c ≠ '\n' ∧ c ≠ '\r') ∧
  M.parse (M.fmt r.Value) = some r.Value

/-- Decimal natural numbers as a concrete instance of the float model,
used to evaluate the theorems on concrete inputs (Go renders the floats
`5.0` and `3.0` of the spec's scenario as the decimal strings "5" and
"3"). -/
def natParse (s : Str) : Option Nat :=
  if !s.isEmpty && s.all Char.isDigit then
    some (s.foldl (fun a c => a * 10 + (c.toNat - 48)) 0)
  else none

abbrev NatModel : FloatModel :=
  { F := Nat, zero := 0, fmt := fun n => (Nat.repr n).data, parse := natParse }

/-- The comparison under which `read`'s output is ordered: `a` may
precede `b` when `b.Timestamp` is not strictly below `a.Timestamp` in Go
string order. -/
abbrev tsLe {F : Type} (a b : Reading F) : Prop :=
  strLt b.Timestamp a.Timestamp = false

theorem splitOnChar_ne_nil (sep : Char) : ∀ s : Str, splitOnChar sep s ≠ []
  | [] => by simp [splitOnChar]
  | c :: cs => by
    have ih := splitOnChar_ne_nil sep cs
    unfold splitOnChar
    split
    · simp
    · match h : splitOnChar sep cs with
      | [] => exact absurd h ih
      | x :: xs => simp

theorem splitOnChar_of_not_mem (sep : Char) :
    ∀ s : Str, (∀ c ∈ s, c ≠ sep) → splitOnChar sep s = [s]
  | [], _ => rfl
  | c :: cs, h => by
    have hc : c ≠ sep := h c (List.mem_cons_self c cs)
    have ih := splitOnChar_of_not_mem sep cs (fun x hx => h x (List.mem_cons_of_mem c hx))
    unfold splitOnChar
    rw [if_neg hc, ih]

theorem splitOnChar_append (sep : Char) :
    ∀ (a b : Str), (∀ c ∈ a, c ≠ sep) →
      splitOnChar sep (a ++ sep :: b) = a :: splitOnChar sep b
  | [], b, _ => by simp [splitOnChar]
  | c :: a, b, h => by
    have hc : c ≠ sep := h c (List.mem_cons_self c a)
    have ih := splitOnChar_append sep a b (fun x hx => h x (List.mem_cons_of_mem c hx))
    show (if c = sep then [] :: splitOnChar sep (a ++ sep :: b) else
      match splitOnChar sep (a ++ sep :: b) with
      | [] => [[c]]
      | h :: t => (c :: h) :: t) = (c :: a) :: splitOnChar sep b
    rw [if_neg hc, ih]

theorem joinLines_append : ∀ xs ys : List Str,
    joinLines (xs ++ ys) = joinLines xs ++ joinLines ys
  | [], ys => rfl
  | l :: xs, ys => by
    simp [joinLines, joinLines_append xs ys]

theorem splitOnChar_nl_joinLines :
    ∀ ls : List Str, (∀ l ∈ ls, '\n' ∉ l) →
      splitOnChar '\n' (joinLines ls) = ls ++ [[]]
  | [], _ => rfl
  | l :: ls, h => by
    have hl : ∀ c ∈ l, c ≠ '\n' := by
      intro c hc he
      exact h l (List.mem_cons_self l ls) (he ▸ hc)
    have ih := splitOnChar_nl_joinLines ls (fun x hx => h x (List.mem_cons_of_mem l hx))
    show splitOnChar '\n' (l ++ '\n' :: joinLines ls) = _
    rw [splitOnChar_append '\n' l _ hl, ih]
    rfl

theorem dropCR_of_getLast? {l : Str} (h : l.getLast? ≠ some '\r') : dropCR l = l := by
  unfold dropCR
  rw [if_neg h]

theorem scannerLines_joinLines (ls : List Str)
    (h : ∀ l ∈ ls, '\n' ∉ l ∧ l.getLast? ≠ some '\r') :
    scannerLines (joinLines ls) = ls := by
  unfold scannerLines dropTrailingEmpty
  rw [splitOnChar_nl_joinLines ls (fun l hl => (h l hl).1)]
  rw [List.getLast?_concat, if_pos rfl, List.dropLast_concat]
  calc ls.map dropCR = ls.map id := List.map_congr_left (fun l hl => dropCR_of_getLast? (h l hl).2)
    _ = ls := List.map_id ls

theorem getLast?_append_cons {α : Type} :
    ∀ (a : List α) (x : α) (b : List α), (a ++ x :: b).getLast? = (x :: b).getLast?
  | [], _, _ => rfl
  | c :: a, x, b => by
    rw [List.cons_append]
    have ih := getLast?_append_cons a x b
    cases h : a ++ x :: b with
    | nil => exact absurd h (by simp)
    | cons y ys =>
      rw [h] at ih
      rw [List.getLast?_cons_cons]
      exact ih

theorem mem_of_getLast?_eq {α : Type} :
    ∀ {l : List α} {a : α}, l.getLast? = some a → a ∈ l
  | [], _, h => by simp at h
  | [x], a, h => by
    simp only [List.getLast?_singleton, Option.some.injEq] at h
    simp [h]
  | x :: y :: l, a, h => by
    rw [List.getLast?_cons_cons] at h
    exact List.mem_cons_of_mem x (mem_of_getLast?_eq h)

theorem encodeLine_not_nl {M : FloatModel} {r : Reading M.F} (h : GoodReading M r) :
    '\n' ∉ encodeLine M r := by
  unfold encodeLine
  intro hm
  rcases List.mem_append.mp hm with h1 | h2
  · exact ((h.1 _ h1).2.1) rfl
  · rcases List.mem_cons.mp h2 with h3 | h4
    · exact absurd h3 (by decide)
    · exact ((h.2.1 _ h4).2.1) rfl

theorem encodeLine_getLast?_ne_cr {M : FloatModel} {r : Reading M.F} (h : GoodReading M r) :
    (encodeLine M r).getLast? ≠ some '\r' := by
  unfold encodeLine
  rw [getLast?_append_cons]
  cases hf : M.fmt r.Value with
  | nil => decide
  | cons d ds =>
    rw [List.getLast?_cons_cons]
    intro hc
    have hmem : '\r' ∈ M.fmt r.Value := by
      rw [hf]; exact mem_of_getLast?_eq hc
    exact ((h.2.1 _ hmem).2.2) rfl

theorem decodeLine_encodeLine_min {M : FloatModel} {r : Reading M.F}
    (hts : ∀ c ∈ r.Timestamp, c ≠ ' ')
    (hf : ∀ c ∈ M.fmt r.Value, c ≠ ' ')
    (hrt : M.parse (M.fmt r.Value) = some r.Value) :
    decodeLine M (encodeLine M r) = some r := by
  unfold decodeLine encodeLine
  rw [splitOnChar_append ' ' r.Timestamp (M.fmt r.Value) hts]
  rw [splitOnChar_of_not_mem ' ' (M.fmt r.Value) hf]
  show some ⟨r.Timestamp, (M.parse (M.fmt r.Value)).getD M.zero⟩ = some r
  rw [hrt]
  rfl

theorem decodeLine_encodeLine {M : FloatModel} {r : Reading M.F} (h : GoodReading M r) :
    decodeLine M (encodeLine M r) = some r :=
  decodeLine_encodeLine_min (fun c hc => (h.1 c hc).1) (fun c hc => (h.2.1 c hc).1) h.2.2

theorem decodeLines_map_encode {M : FloatModel} :
    ∀ rs : List (Reading M.F), (∀ r ∈ rs, GoodReading M r) →
      decodeLines M (rs.map (encodeLine M)) = some rs
  | [], _ => rfl
  | r :: rs, h => by
    have ih := decodeLines_map_encode rs (fun x hx => h x (List.mem_cons_of_mem r hx))
    show decodeLines M (encodeLine M r :: rs.map (encodeLine M)) = some (r :: rs)
    unfold decodeLines
    rw [decodeLine_encodeLine (h r (List.mem_cons_self r rs)), ih]

theorem encBlock_append (M : FloatModel) (xs ys : List (Reading M.F)) :
    encBlock M (xs ++ ys) = encBlock M xs ++ encBlock M ys := by
  unfold encBlock
  rw [List.map_append, joinLines_append]

theorem foldl_encode (M : FloatModel) :
    ∀ (rs : List (Reading M.F)) (acc : Str),
      rs.foldl (fun acc r => acc ++ encodeLine M r ++ ['\n']) acc = acc ++ encBlock M rs
  | [], acc => by simp [encBlock, joinLines]
  | r :: rs, acc => by
    show List.foldl _ (acc ++ encodeLine M r ++ ['\n']) rs = _
    rw [foldl_encode M rs]
    simp [encBlock, joinLines, List.append_assoc]

theorem updateFS_same (fs : FS) (name : Str) (c : Str) : updateFS fs name c name = some c := by
  simp [updateFS]

theorem write_noErr_eq (M : FloatModel) (env : Env) (fs : FS) (dataDir : Str) (b : Readings M.F)
    (how : env.openWrite (filename dataDir b.Sensor_id) = none)
    (hfl : env.flush (filename dataDir b.Sensor_id) = none) :
    write M env fs dataDir b =
      (Except.ok (),
       updateFS fs (filename dataDir b.Sensor_id)
         ((fs (filename dataDir b.Sensor_id)).getD [] ++ encBlock M b.Readings)) := by
  unfold write
  rw [how]
  simp only [hfl]
  rw [foldl_encode M b.Readings []]
  rfl

theorem processWrites_acc (M : FloatModel) (dataDir : Str) (s : Nat) :
    ∀ (bs : List (Readings M.F)) (fs : FS) (c₀ : Str),
      (∀ b ∈ bs, b.Sensor_id = s) →
      fs (filename dataDir s) = some c₀ →
      processWrites M noErr dataDir bs fs (filename dataDir s) =
        some (c₀ ++ encBlock M (allReadings bs))
  | [], fs, c₀, _, hfs => by
    simp [processWrites, allReadings, encBlock, joinLines, hfs]
  | b :: bs, fs, c₀, hb, hfs => by
    have hsid : b.Sensor_id = s := hb b (List.mem_cons_self b bs)
    have hsub : (submitWrite M noErr fs dataDir b).2 =
        updateFS fs (filename dataDir s) (c₀ ++ encBlock M b.Readings) := by
      unfold submitWrite
      rw [write_noErr_eq M noErr fs dataDir b rfl rfl, hsid, hfs]
      rfl
    show processWrites M noErr dataDir bs (submitWrite M noErr fs dataDir b).2
        (filename dataDir s) = _
    rw [hsub]
    rw [processWrites_acc M dataDir s bs _ (c₀ ++ encBlock M b.Readings)
      (fun x hx => hb x (List.mem_cons_of_mem b hx))
      (updateFS_same fs (filename dataDir s) (c₀ ++ encBlock M b.Readings))]
    simp [allReadings, encBlock_append, List.append_assoc]

theorem read_content (M : FloatModel) (env : Env) (fs : FS) (dataDir : Str) (sensorId : Nat)
    (sortF : List (Reading M.F) → List (Reading M.F)) (rs : List (Reading M.F))
    (ho : env.openRead (filename dataDir sensorId) = none)
    (hc : fs (filename dataDir sensorId) = some (encBlock M rs))
    (hg : ∀ r ∈ rs, GoodReading M r) :
    read M env fs dataDir sensorId sortF = some ⟨sensorId, sortF rs⟩ := by
  unfold read
  rw [ho, hc]
  have hlines : scannerLines (encBlock M rs) = rs.map (encodeLine M) := by
    apply scannerLines_joinLines
    intro l hl
    rcases List.mem_map.mp hl with ⟨r, hr, hrl⟩
    subst hrl
    exact ⟨encodeLine_not_nl (hg r hr), encodeLine_getLast?_ne_cr (hg r hr)⟩
  show (match decodeLines M (scannerLines (encBlock M rs)) with
    | none => none
    | some rs => some (⟨sensorId, sortF rs⟩ : Readings M.F)) = _
  rw [hlines, decodeLines_map_encode rs hg]

theorem read_after_processWrites (M : FloatModel) (dataDir : Str) (s : Nat)
    (bs : List (Readings M.F)) (fs : FS)
    (sortF : List (Reading M.F) → List (Reading M.F))
    (hfs : fs (filename dataDir s) = none)
    (hb : ∀ b ∈ bs, b.Sensor_id = s)
    (hg : ∀ r ∈ allReadings bs, GoodReading M r)
    (hperm : ∀ l, (sortF l).Perm l) :
    read M noErr (processWrites M noErr dataDir bs fs) dataDir s sortF =
      some ⟨s, sortF (allReadings bs)⟩ := by
  cases bs with
  | nil =>
    have h0 : sortF ([] : List (Reading M.F)) = [] := (hperm []).eq_nil
    show read M noErr fs dataDir s sortF = some ⟨s, sortF (allReadings [])⟩
    unfold read
    rw [hfs]
    simp [noErr, allReadings, h0]
  | cons b bs =>
    have hsid : b.Sensor_id = s := hb b (List.mem_cons_self b bs)
    have hsub : (submitWrite M noErr fs dataDir b).2 =
        updateFS fs (filename dataDir s) (encBlock M b.Readings) := by
      unfold submitWrite
      rw [write_noErr_eq M noErr fs dataDir b rfl rfl, hsid, hfs]
      rfl
    show read M noErr (processWrites M noErr dataDir bs (submitWrite M noErr fs dataDir b).2)
      dataDir s sortF = _
    rw [hsub]
    apply read_content
    · rfl
    · rw [processWrites_acc M dataDir s bs _ (encBlock M b.Readings)
        (fun x hx => hb x (List.mem_cons_of_mem b hx))
        (updateFS_same fs (filename dataDir s) (encBlock M b.Readings))]
      rw [show allReadings (b :: bs) = b.Readings ++ allReadings bs from rfl]
      rw [encBlock_append]
    · exact hg

theorem strLt_cons (x y : Char) (xs ys : Str) :
    strLt (x :: xs) (y :: ys) =
      (if x < y then true else if y < x then false else strLt xs ys) := rfl

theorem strLt_nil_right : ∀ a : Str, strLt a [] = false
  | [] => rfl
  | _ :: _ => rfl

theorem strLt_irrefl : ∀ a : Str, strLt a a = false
  | [] => rfl
  | c :: cs => by
    rw [strLt_cons, if_neg (lt_irrefl c), if_neg (lt_irrefl c)]
    exact strLt_irrefl cs

theorem strLt_trans : ∀ a b c : Str, strLt a b = true → strLt b c = true → strLt a c = true
  | a, b, [], _, h2 => by
    rw [strLt_nil_right b] at h2
    exact absurd h2 (by decide)
  | [], [], z :: zs, h1, _ => by
    rw [strLt_nil_right] at h1
    exact absurd h1 (by decide)
  | [], y :: ys, z :: zs, _, _ => rfl
  | x :: xs, [], z :: zs, h1, _ => by
    rw [strLt_nil_right] at h1
    exact absurd h1 (by decide)
  | x :: xs, y :: ys, z :: zs, h1, h2 => by
    rw [strLt_cons] at h1 h2 ⊢
    by_cases hxy : x < y
    · by_cases hyz : y < z
      · rw [if_pos (lt_trans hxy hyz)]
      · by_cases hzy : z < y
        · rw [if_neg hyz, if_pos hzy] at h2
          exact absurd h2 (by decide)
        · have hy : y = z := le_antisymm (not_lt.mp hzy) (not_lt.mp hyz)
          subst hy
          rw [if_pos hxy]
    · by_cases hyx : y < x
      · rw [if_neg hxy, if_pos hyx] at h1
        exact absurd h1 (by decide)
      · have hx : x = y := le_antisymm (not_lt.mp hyx) (not_lt.mp hxy)
        subst hx
        rw [if_neg hxy, if_neg hyx] at h1
        by_cases hxz : x < z
        · rw [if_pos hxz]
        · by_cases hzx : z < x
          · rw [if_neg hxz, if_pos hzx] at h2
            exact absurd h2 (by decide)
          · rw [if_neg hxz, if_neg hzx] at h2 ⊢
            exact strLt_trans xs ys zs h1 h2

theorem strLt_asymm (a b : Str) (h : strLt a b = true) : strLt b a = false := by
  cases hba : strLt b a with
  | false => rfl
  | true =>
    have := strLt_trans a b a h hba
    rw [strLt_irrefl a] at this
    exact absurd this (by decide)

theorem strLt_cases : ∀ a b : Str, strLt a b = true ∨ a = b ∨ strLt b a = true
  | [], [] => Or.inr (Or.inl rfl)
  | [], _ :: _ => Or.inl rfl
  | _ :: _, [] => Or.inr (Or.inr rfl)
  | x :: xs, y :: ys => by
    rcases lt_trichotomy x y with h | h | h
    · exact Or.inl (by rw [strLt_cons, if_pos h])
    · subst h
      rcases strLt_cases xs ys with h2 | h2 | h2
      · refine Or.inl ?_
        rw [strLt_cons, if_neg (lt_irrefl x), if_neg (lt_irrefl x)]
        exact h2
      · exact Or.inr (Or.inl (by rw [h2]))
      · refine Or.inr (Or.inr ?_)
        rw [strLt_cons, if_neg (lt_irrefl x), if_neg (lt_irrefl x)]
        exact h2
    · exact Or.inr (Or.inr (by rw [strLt_cons, if_pos h]))

instance {F : Type} : IsTotal (Reading F) tsLe :=
  ⟨fun a b => by
    cases h : strLt b.Timestamp a.Timestamp with
    | false => exact Or.inl h
    | true => exact Or.inr (strLt_asymm _ _ h)⟩

instance {F : Type} : IsTrans (Reading F) tsLe :=
  ⟨fun a b c hab hbc => by
    have hab' : strLt b.Timestamp a.Timestamp = false := hab
    have hbc' : strLt c.Timestamp b.Timestamp = false := hbc
    show strLt c.Timestamp a.Timestamp = false
    cases hca : strLt c.Timestamp a.Timestamp with
    | false => rfl
    | true =>
      exfalso
      rcases strLt_cases b.Timestamp c.Timestamp with h | h | h
      · have hx := strLt_trans _ _ _ h hca
        rw [hab'] at hx
        exact absurd hx (by decide)
      · rw [h] at hab'
        rw [hab'] at hca
        exact absurd hca (by decide)
      · rw [hbc'] at h
        exact absurd h (by decide)⟩

/-- A sort function satisfying the contract of `sort.Slice` with the
comparison of src/server.go line 141, used to instantiate the abstract
`sortF` when the theorems are evaluated on concrete inputs. -/
def sortTs {F : Type} (l : List (Reading F)) : List (Reading F) :=
  List.insertionSort tsLe l

theorem sortTs_perm {F : Type} (l : List (Reading F)) : (sortTs l).Perm l :=
  List.perm_insertionSort tsLe l

theorem sortTs_sorted {F : Type} (l : List (Reading F)) : SortedTs (sortTs l) :=
  List.sorted_insertionSort tsLe l

theorem perm_pair {α : Type} {l : List α} {a b : α} (h : l.Perm [a, b]) :
    l = [a, b] ∨ l = [b, a] := by
  have hlen : l.length = 2 := h.length_eq
  cases l with
  | nil => simp at hlen
  | cons x l' =>
    cases l' with
    | nil => simp at hlen
    | cons y l'' =>
      cases l'' with
      | cons z l3 => simp at hlen
      | nil =>
        have hx : x ∈ [a, b] := h.mem_iff.mp (List.mem_cons_self x [y])
        rcases List.mem_cons.mp hx with hxa | hxb
        · subst hxa
          have h2 : [y].Perm [b] := h.cons_inv
          rw [List.perm_singleton.mp h2]
          exact Or.inl rfl
        · have hxb' : x = b := by simpa using hxb
          subst hxb'
          have h' : ([x, y] : List α).Perm [x, a] := h.trans (List.Perm.swap x a [])
          have h2 : [y].Perm [a] := h'.cons_inv
          rw [List.perm_singleton.mp h2]
          exact Or.inr rfl

theorem decodeLines_length {M : FloatModel} :
    ∀ (ls : List Str) (rs : List (Reading M.F)),
      decodeLines M ls = some rs → rs.length = ls.length
  | [], rs, h => by
    simp only [decodeLines, Option.some.injEq] at h
    rw [← h]
    rfl
  | l :: ls, rs, h => by
    unfold decodeLines at h
    cases h1 : decodeLine M l with
    | none => rw [h1] at h; exact absurd h (by simp)
    | some r =>
      rw [h1] at h
      cases h2 : decodeLines M ls with
      | none => rw [h2] at h; exact absurd h (by simp)
      | some rs' =>
        rw [h2] at h
        simp only [Option.some.injEq] at h
        rw [← h]
        simp [decodeLines_length ls rs' h2]

theorem decodeLines_eq_none_iff {M : FloatModel} :
    ∀ ls : List Str, decodeLines M ls = none ↔ ∃ l ∈ ls, decodeLine M l = none
  | [] => by simp [decodeLines]
  | l :: ls => by
    unfold decodeLines
    cases h1 : decodeLine M l with
    | none =>
      constructor
      · intro _
        exact ⟨l, List.mem_cons_self l ls, h1⟩
      · intro _
        rfl
    | some r =>
      cases h2 : decodeLines M ls with
      | none =>
        constructor
        · intro _
          rcases (decodeLines_eq_none_iff ls).mp h2 with ⟨l', hl', hnone⟩
          exact ⟨l', List.mem_cons_of_mem l hl', hnone⟩
        · intro _
          rfl
      | some rs =>
        constructor
        · intro hcontr
          exact absurd hcontr (by simp)
        · rintro ⟨l', hl', hnone⟩
          rcases List.mem_cons.mp hl' with he | hm
          · rw [← he] at h1
            rw [h1] at hnone
            exact absurd hnone (by simp)
          · have hx := (decodeLines_eq_none_iff ls).mpr ⟨l', hm, hnone⟩
            rw [h2] at hx
            exact absurd hx (by simp)

theorem splitOnChar_length_eq_one_iff (sep : Char) :
    ∀ s : Str, (splitOnChar sep s).length = 1 ↔ sep ∉ s
  | [] => by simp [splitOnChar]
  | c :: cs => by
    by_cases hc : c = sep
    · subst hc
      constructor
      · intro h
        exfalso
        have hne := splitOnChar_ne_nil c cs
        have : splitOnChar c (c :: cs) = [] :: splitOnChar c cs := by
          show (if c = c then [] :: splitOnChar c cs else _) = _
          rw [if_pos rfl]
        rw [this] at h
        simp only [List.length_cons] at h
        cases hs : splitOnChar c cs with
        | nil => exact hne hs
        | cons p ps => rw [hs] at h; simp at h
      · intro h
        exact absurd (List.mem_cons_self c cs) h
    · have hstep : splitOnChar sep (c :: cs) =
          (match splitOnChar sep cs with
           | [] => [[c]]
           | h :: t => (c :: h) :: t) := by
        show (if c = sep then _ else _) = _
        rw [if_neg hc]
      rw [hstep]
      cases hs : splitOnChar sep cs with
      | nil => exact absurd hs (splitOnChar_ne_nil sep cs)
      | cons p ps =>
        have ihl := splitOnChar_length_eq_one_iff sep cs
        rw [hs] at ihl
        simp only [List.length_cons] at ihl ⊢
        constructor
        · intro h
          intro hmem
          rcases List.mem_cons.mp hmem with he | hm
          · exact hc he.symm
          · exact (ihl.mp (by omega)) hm
        · intro h
          have : sep ∉ cs := fun hm => h (List.mem_cons_of_mem c hm)
          have := ihl.mpr this
          omega

theorem decodeLine_eq_none_iff {M : FloatModel} (l : Str) :
    decodeLine M l = none ↔ ' ' ∉ l := by
  unfold decodeLine
  rw [← splitOnChar_length_eq_one_iff ' ' l]
  cases hs : splitOnChar ' ' l with
  | nil => exact absurd hs (splitOnChar_ne_nil ' ' l)
  | cons p ps =>
    cases ps with
    | nil => simp
    | cons q qs => simp

theorem write_fst (M : FloatModel) (env : Env) (fs : FS) (dataDir : Str) (b : Readings M.F) :
    (write M env fs dataDir b).1 =
      match env.openWrite (filename dataDir b.Sensor_id) with
      | some e => Except.error e
      | none => Except.ok () := by
  unfold write
  cases h : env.openWrite (filename dataDir b.Sensor_id) <;> rfl

theorem submitWrite_fst (M : FloatModel) (env : Env) (fs : FS) (dataDir : Str)
    (b : Readings M.F) :
    (submitWrite M env fs dataDir b).1 =
      match env.openWrite (filename dataDir b.Sensor_id) with
      | some _ => WriteResp.errorWriting
      | none => WriteResp.created := by
  unfold submitWrite write
  cases h : env.openWrite (filename dataDir b.Sensor_id) <;> rfl

/-- C4: a sensor whose log file does not exist reads back as a batch
carrying the requested sensor id and an empty readings sequence —
absence is not an error (src/server.go lines 126-128, where the open
error is swallowed and an empty `Readings` is returned). -/
theorem C4_absent_sensor_reads_empty (M : FloatModel) (env : Env) (fs : FS) (dataDir : Str)
    (sensorId : Nat) (sortF : List (Reading M.F) → List (Reading M.F))
    (ho : env.openRead (filename dataDir sensorId) = none)
    (habs : fs (filename dataDir sensorId) = none) :
    read M env fs dataDir sensorId sortF = some ⟨sensorId, []⟩ := by
  unfold read
  rw [ho, habs]

/-- C4 witness: the spec scenario `submitRead(42)` on a fresh store
yields `{sensor_id: 42, readings: []}`. -/
theorem C4_witness :
    read NatModel noErr (fun _ => none) "data/".data 42 sortTs = some ⟨42, []⟩ :=
  C4_absent_sensor_reads_empty NatModel noErr (fun _ => none) "data/".data 42 sortTs rfl rfl

/-- C10: ANY failure of `os.Open` — not only non-existence — makes
`read` return the empty batch for the requested sensor id: the open
error is never inspected (src/server.go line 127), so an unreadable log
file answers exactly like an absent one and `submitRead` can never
surface an I/O error. -/
theorem C10_any_open_error_reads_empty (M : FloatModel) (env : Env) (fs : FS) (dataDir : Str)
    (sensorId : Nat) (sortF : List (Reading M.F) → List (Reading M.F)) (e : String)
    (he : env.openRead (filename dataDir sensorId) = some e) :
    read M env fs dataDir sensorId sortF = some ⟨sensorId, []⟩ := by
  unfold read
  rw [he]

/-- C10 witness: a sensor whose log file exists and holds data, but
whose open fails with a permission error, reads back empty — the same
answer an absent sensor gives. -/
theorem C10_witness :
    read NatModel
      { openRead := fun _ => some "permission denied",
        openWrite := fun _ => none, flush := fun _ => none }
      (updateFS (fun _ => none) (filename "data/".data 1) "2024-01-01 5\n".data)
      "data/".data 1 sortTs = some ⟨1, []⟩ :=
  C10_any_open_error_reads_empty NatModel
    { openRead := fun _ => some "permission denied",
      openWrite := fun _ => none, flush := fun _ => none }
    (updateFS (fun _ => none) (filename "data/".data 1) "2024-01-01 5\n".data)
    "data/".data 1 sortTs "permission denied" rfl

/-- C3: when the open and the flush succeed, `write` makes the sensor's
file hold exactly the prior content (empty when the file was absent,
which the `O_CREATE` open creates) followed by one encoded line per
reading, in the order given; in particular the prior content is a prefix
of the new content — nothing is truncated, rewritten or reordered — and
the call reports success. -/
theorem C3_append_extends_file (M : FloatModel) (env : Env) (fs : FS) (dataDir : Str)
    (b : Readings M.F)
    (how : env.openWrite (filename dataDir b.Sensor_id) = none)
    (hfl : env.flush (filename dataDir b.Sensor_id) = none) :
    (write M env fs dataDir b).2 (filename dataDir b.Sensor_id)
        = some ((fs (filename dataDir b.Sensor_id)).getD []
            ++ joinLines (b.Readings.map (encodeLine M)))
    ∧ (∀ old, fs (filename dataDir b.Sensor_id) = some old →
        ∃ t, (write M env fs dataDir b).2 (filename dataDir b.Sensor_id) = some (old ++ t))
    ∧ (write M env fs dataDir b).1 = Except.ok () := by
  have hw := write_noErr_eq M env fs dataDir b how hfl
  rw [hw]
  refine ⟨updateFS_same _ _ _, ?_, rfl⟩
  intro old hold
  refine ⟨encBlock M b.Readings, ?_⟩
  show updateFS fs (filename dataDir b.Sensor_id)
      ((fs (filename dataDir b.Sensor_id)).getD [] ++ encBlock M b.Readings)
      (filename dataDir b.Sensor_id) = some (old ++ encBlock M b.Readings)
  rw [updateFS_same, hold]
  rfl

/-- C3 witness: appending two readings to a file already holding one
line yields the old line followed by the two new ones, in order. -/
theorem C3_witness :
    ((write NatModel noErr
        (updateFS (fun _ => none) (filename "data/".data 7) "2024-01-01 1\n".data)
        "data/".data ⟨7, [⟨"2024-01-02".data, 2⟩, ⟨"2024-01-03".data, 3⟩]⟩).2
          (filename "data/".data 7)
        = some ("2024-01-01 1\n".data
            ++ joinLines ([⟨"2024-01-02".data, (2 : Nat)⟩,
                ⟨"2024-01-03".data, 3⟩].map (encodeLine NatModel))))
    ∧ (∀ old,
        updateFS (fun _ => none) (filename "data/".data 7) "2024-01-01 1\n".data
          (filename "data/".data 7) = some old →
        ∃ t, (write NatModel noErr
          (updateFS (fun _ => none) (filename "data/".data 7) "2024-01-01 1\n".data)
          "data/".data ⟨7, [⟨"2024-01-02".data, 2⟩, ⟨"2024-01-03".data, 3⟩]⟩).2
            (filename "data/".data 7) = some (old ++ t))
    ∧ (write NatModel noErr
        (updateFS (fun _ => none) (filename "data/".data 7) "2024-01-01 1\n".data)
        "data/".data ⟨7, [⟨"2024-01-02".data, 2⟩, ⟨"2024-01-03".data, 3⟩]⟩).1
        = Except.ok () := by
  have h := C3_append_extends_file NatModel noErr
    (updateFS (fun _ => none) (filename "data/".data 7) "2024-01-01 1\n".data)
    "data/".data ⟨7, [⟨"2024-01-02".data, 2⟩, ⟨"2024-01-03".data, 3⟩]⟩ rfl rfl
  refine ⟨?_, h.2.1, h.2.2⟩
  have h1 := h.1
  rw [show (updateFS (fun _ => none) (filename "data/".data 7) "2024-01-01 1\n".data
      (filename "data/".data 7)) = some "2024-01-01 1\n".data from updateFS_same _ _ _] at h1
  exact h1

/-- C7 counterexample: in an environment where opening the file succeeds
but the buffered write of the encoded lines fails (flush error forced,
nothing reaching the disk), `write` still returns nil — the source
discards the results of `fmt.Fprintln` and `writer.Flush()` — and the
caller is answered 201 Created; the claim that a WriteError is returned
"whenever writing the encoded lines fails" is false at this input. -/
theorem C7_counterexample :
    ((write NatModel
        { openRead := fun _ => none, openWrite := fun _ => none, flush := fun _ => some 0 }
        (fun _ => none) "data/".data ⟨1, [⟨"2024-01-01".data, 5⟩]⟩).1 = Except.ok ())
    ∧ ((submitWrite NatModel
        { openRead := fun _ => none, openWrite := fun _ => none, flush := fun _ => some 0 }
        (fun _ => none) "data/".data ⟨1, [⟨"2024-01-01".data, 5⟩]⟩).1 = WriteResp.created) :=
  ⟨rfl, rfl⟩

/-- C7 (amended): submitWrite reports an error exactly when the file
cannot be opened, in which case `write` propagates the underlying open
error; errors from writing or flushing the encoded lines are discarded
by the source, so whenever the open succeeds the caller is answered
success regardless of the write outcome. -/
theorem C7_amended_error_iff_open_fails (M : FloatModel) (env : Env) (fs : FS)
    (dataDir : Str) (b : Readings M.F) :
    ((submitWrite M env fs dataDir b).1 = WriteResp.errorWriting
        ↔ (env.openWrite (filename dataDir b.Sensor_id)).isSome)
    ∧ (∀ e, env.openWrite (filename dataDir b.Sensor_id) = some e →
        (write M env fs dataDir b).1 = Except.error e) := by
  constructor
  · rw [submitWrite_fst]
    cases h : env.openWrite (filename dataDir b.Sensor_id) with
    | some e => simp
    | none => simp
  · intro e he
    rw [write_fst, he]

/-- C7 witness: a forced open failure is propagated to the caller as the
write's error result. -/
theorem C7_witness :
    (write NatModel
      { openRead := fun _ => none, openWrite := fun _ => some "EACCES",
        flush := fun _ => none }
      (fun _ => none) "data/".data ⟨1, []⟩).1 = Except.error "EACCES" :=
  (C7_amended_error_iff_open_fails NatModel
    { openRead := fun _ => none, openWrite := fun _ => some "EACCES",
      flush := fun _ => none }
    (fun _ => none) "data/".data ⟨1, []⟩).2 "EACCES" rfl

theorem allReadings_map_singleton {F : Type} (s : Nat) :
    ∀ rs : List (Reading F), allReadings (rs.map fun r => ⟨s, [r]⟩) = rs
  | [] => rfl
  | r :: rs => by
    simp [allReadings, allReadings_map_singleton s rs]

/-- C1: the worker loop of `readWriteRoutine` runs each storage
operation to completion before starting the next, so N concurrent
single-reading `submitWrite` calls to the same sensor are observed as
some arrival order `rs` (which the theorem quantifies over), processed
sequentially; a following `submitRead` of that sensor then succeeds (no
torn read: the reader runs only after every append has completed) and
returns exactly N readings, a permutation of the submitted ones — none
lost, none duplicated, none corrupted.  Hypotheses: the sensor's file
does not exist yet, the readings are codec-representable
(`GoodReading`, per the spec's no-space/no-newline timestamp contract
and strconv's round-trip guarantee), and the library sort returns a
permutation of its input (its documented contract). -/
theorem C1_serial_writes_then_read_exact (M : FloatModel) (dataDir : Str) (s : Nat)
    (rs : List (Reading M.F)) (fs : FS)
    (sortF : List (Reading M.F) → List (Reading M.F))
    (hfs : fs (filename dataDir s) = none)
    (hg : ∀ r ∈ rs, GoodReading M r)
    (hperm : ∀ l, (sortF l).Perm l) :
    ∃ res : Readings M.F,
      read M noErr
        (processWrites M noErr dataDir (rs.map fun r => ⟨s, [r]⟩) fs) dataDir s sortF
        = some res
      ∧ res.Sensor_id = s ∧ res.Readings.Perm rs ∧ res.Readings.length = rs.length := by
  have hb : ∀ b ∈ rs.map (fun r => (⟨s, [r]⟩ : Readings M.F)), b.Sensor_id = s := by
    intro b hmem
    rcases List.mem_map.mp hmem with ⟨r, _, hr⟩
    rw [← hr]
  have hall := allReadings_map_singleton (F := M.F) s rs
  have hg' : ∀ r ∈ allReadings (rs.map fun r => (⟨s, [r]⟩ : Readings M.F)), GoodReading M r := by
    rw [hall]
    exact hg
  have h := read_after_processWrites M dataDir s _ fs sortF hfs hb hg' hperm
  rw [hall] at h
  exact ⟨⟨s, sortF rs⟩, h, rfl, hperm rs, (hperm rs).length_eq⟩

/-- C1 witness: three concurrent single-reading writes (two sharing a
timestamp) land as three readings, a permutation of the submitted ones. -/
theorem C1_witness :
    ∃ res : Readings Nat,
      read NatModel noErr
        (processWrites NatModel noErr "data/".data
          ([⟨"2024-01-02".data, 5⟩, ⟨"2024-01-01".data, 3⟩,
            ⟨"2024-01-01".data, 7⟩].map fun r => ⟨9, [r]⟩)
          (fun _ => none)) "data/".data 9 sortTs
        = some res
      ∧ res.Sensor_id = 9
      ∧ res.Readings.Perm [⟨"2024-01-02".data, 5⟩, ⟨"2024-01-01".data, 3⟩,
          ⟨"2024-01-01".data, 7⟩]
      ∧ res.Readings.length
          = ([⟨"2024-01-02".data, (5 : Nat)⟩, ⟨"2024-01-01".data, 3⟩,
              ⟨"2024-01-01".data, 7⟩] : List (Reading Nat)).length :=
  C1_serial_writes_then_read_exact NatModel "data/".data 9
    [⟨"2024-01-02".data, 5⟩, ⟨"2024-01-01".data, 3⟩, ⟨"2024-01-01".data, 7⟩]
    (fun _ => none) sortTs rfl (by decide) sortTs_perm

/-- C2: (general part) whatever sequence of batches is appended to one
sensor across separate submitWrite calls and in whatever order they
arrive, a following submitRead succeeds and returns all their readings
sorted by timestamp string in ascending Go string order; (scenario part)
writing {"2024-01-02", v5} then {"2024-01-01", v3} to sensor 1 and
reading sensor 1 yields [{"2024-01-01", v3}, {"2024-01-02", v5}] for any
representable values v5, v3 (Go renders the spec's 5.0 and 3.0 as "5"
and "3").  `sortF` carries the documented `sort.Slice` contract:
permutation, ordered by the line-141 comparison. -/
theorem C2_read_returns_sorted_history :
    (∀ (M : FloatModel) (dataDir : Str) (s : Nat) (bs : List (Readings M.F)) (fs : FS)
        (sortF : List (Reading M.F) → List (Reading M.F)),
      fs (filename dataDir s) = none →
      (∀ b ∈ bs, b.Sensor_id = s) →
      (∀ r ∈ allReadings bs, GoodReading M r) →
      (∀ l, (sortF l).Perm l) →
      (∀ l, SortedTs (sortF l)) →
      ∃ res : Readings M.F,
        read M noErr (processWrites M noErr dataDir bs fs) dataDir s sortF = some res
        ∧ SortedTs res.Readings ∧ res.Readings.Perm (allReadings bs))
    ∧
    (∀ (M : FloatModel) (dataDir : Str) (fs : FS) (v5 v3 : M.F)
        (sortF : List (Reading M.F) → List (Reading M.F)),
      fs (filename dataDir 1) = none →
      GoodReading M ⟨"2024-01-02".data, v5⟩ →
      GoodReading M ⟨"2024-01-01".data, v3⟩ →
      (∀ l, (sortF l).Perm l) →
      (∀ l, SortedTs (sortF l)) →
      read M noErr
        (processWrites M noErr dataDir
          [⟨1, [⟨"2024-01-02".data, v5⟩]⟩, ⟨1, [⟨"2024-01-01".data, v3⟩]⟩] fs)
        dataDir 1 sortF
        = some ⟨1, [⟨"2024-01-01".data, v3⟩, ⟨"2024-01-02".data, v5⟩]⟩) := by
  constructor
  · intro M dataDir s bs fs sortF hfs hb hg hperm hsort
    have h := read_after_processWrites M dataDir s bs fs sortF hfs hb hg hperm
    exact ⟨⟨s, sortF (allReadings bs)⟩, h, hsort _, hperm _⟩
  · intro M dataDir fs v5 v3 sortF hfs h5 h3 hperm hsort
    have hb : ∀ b ∈ ([⟨1, [⟨"2024-01-02".data, v5⟩]⟩,
        ⟨1, [⟨"2024-01-01".data, v3⟩]⟩] : List (Readings M.F)), b.Sensor_id = 1 := by
      intro b hmem
      rcases List.mem_cons.mp hmem with h | h
      · rw [h]
      · rcases List.mem_cons.mp h with h | h
        · rw [h]
        · exact absurd h (List.not_mem_nil b)
    have hg : ∀ r ∈ allReadings ([⟨1, [⟨"2024-01-02".data, v5⟩]⟩,
        ⟨1, [⟨"2024-01-01".data, v3⟩]⟩] : List (Readings M.F)), GoodReading M r := by
      intro r hmem
      rcases List.mem_cons.mp hmem with h | h
      · rw [h]; exact h5
      · rcases List.mem_cons.mp h with h | h
        · rw [h]; exact h3
        · exact absurd h (List.not_mem_nil r)
    have h := read_after_processWrites M dataDir 1
      [⟨1, [⟨"2024-01-02".data, v5⟩]⟩, ⟨1, [⟨"2024-01-01".data, v3⟩]⟩] fs sortF hfs hb hg hperm
    rw [h]
    have hD : allReadings ([⟨1, [⟨"2024-01-02".data, v5⟩]⟩,
        ⟨1, [⟨"2024-01-01".data, v3⟩]⟩] : List (Readings M.F))
        = [⟨"2024-01-02".data, v5⟩, ⟨"2024-01-01".data, v3⟩] := rfl
    rw [hD]
    rcases perm_pair (hperm [⟨"2024-01-02".data, v5⟩, ⟨"2024-01-01".data, v3⟩]) with he | he
    · exfalso
      have hs := hsort [⟨"2024-01-02".data, v5⟩, ⟨"2024-01-01".data, v3⟩]
      rw [he] at hs
      have := (List.pairwise_cons.mp hs).1 ⟨"2024-01-01".data, v3⟩
        (List.mem_cons_self _ _)
      rw [show strLt ("2024-01-01".data) ("2024-01-02".data) = true from by decide] at this
      exact absurd this (by decide)
    · rw [he]

/-- C2 witness: the spec's scenario run concretely — values 5 and 3,
the verified insertion sort standing in for `sort.Slice` — plus a
concrete instance of the general sortedness statement. -/
theorem C2_witness :
    (∃ res : Readings Nat,
      read NatModel noErr
        (processWrites NatModel noErr "data/".data
          [⟨1, [⟨"2024-01-02".data, 5⟩, ⟨"2024-01-03".data, 9⟩]⟩,
           ⟨1, [⟨"2024-01-01".data, 3⟩]⟩] (fun _ => none)) "data/".data 1 sortTs
        = some res
      ∧ SortedTs res.Readings
      ∧ res.Readings.Perm (allReadings
          [⟨1, [⟨"2024-01-02".data, 5⟩, ⟨"2024-01-03".data, 9⟩]⟩,
           ⟨1, [⟨"2024-01-01".data, 3⟩]⟩]))
    ∧
    read NatModel noErr
      (processWrites NatModel noErr "data/".data
        [⟨1, [⟨"2024-01-02".data, 5⟩]⟩, ⟨1, [⟨"2024-01-01".data, 3⟩]⟩] (fun _ => none))
      "data/".data 1 sortTs
      = some ⟨1, [⟨"2024-01-01".data, 3⟩, ⟨"2024-01-02".data, 5⟩]⟩ :=
  ⟨C2_read_returns_sorted_history.1 NatModel "data/".data 1
      [⟨1, [⟨"2024-01-02".data, 5⟩, ⟨"2024-01-03".data, 9⟩]⟩,
       ⟨1, [⟨"2024-01-01".data, 3⟩]⟩] (fun _ => none) sortTs
      rfl (by decide) (by decide) sortTs_perm sortTs_sorted,
   C2_read_returns_sorted_history.2 NatModel "data/".data (fun _ => none) 5 3 sortTs
      rfl (by decide) (by decide) sortTs_perm sortTs_sorted⟩

/-- C5: the codec round-trips.  Well-formed lines are those `encode`
can produce: `"<timestamp> <value>"` with a space/newline-free timestamp
and the value in strconv's rendered form; on these,
encode(decode(line)) = line.  Conversely decode(encode(r)) = r for every
reading whose timestamp has no space and no newline, given strconv's
documented contract for the rendered value (no space in the output, and
parsing the output returns the value). -/
theorem C5_codec_round_trip :
    (∀ (M : FloatModel) (ts : Str) (v : M.F),
      (∀ c ∈ ts, c ≠ ' ' ∧ c ≠ '\n') →
      (∀ c ∈ M.fmt v, c ≠ ' ') →
      M.parse (M.fmt v) = some v →
      (decodeLine M (ts ++ ' ' :: M.fmt v)).map (encodeLine M)
        = some (ts ++ ' ' :: M.fmt v))
    ∧
    (∀ (M : FloatModel) (r : Reading M.F),
      (∀ c ∈ r.Timestamp, c ≠ ' ' ∧ c ≠ '\n') →
      (∀ c ∈ M.fmt r.Value, c ≠ ' ') →
      M.parse (M.fmt r.Value) = some r.Value →
      decodeLine M (encodeLine M r) = some r) := by
  constructor
  · intro M ts v hts hf hrt
    have hd : decodeLine M (ts ++ ' ' :: M.fmt v) = some ⟨ts, v⟩ :=
      decodeLine_encodeLine_min (r := ⟨ts, v⟩) (fun c hc => (hts c hc).1) hf hrt
    rw [hd]
    rfl
  · intro M r hts hf hrt
    exact decodeLine_encodeLine_min (fun c hc => (hts c hc).1) hf hrt

/-- C5 witness: both directions of the round trip evaluated on the
concrete line "2024-01-01 5" and the concrete reading
{"2024-01-01", 5}. -/
theorem C5_witness :
    ((decodeLine NatModel ("2024-01-01".data ++ ' ' :: NatModel.fmt 5)).map
        (encodeLine NatModel) = some ("2024-01-01".data ++ ' ' :: NatModel.fmt 5))
    ∧ decodeLine NatModel (encodeLine NatModel ⟨"2024-01-01".data, 5⟩)
        = some ⟨"2024-01-01".data, 5⟩ :=
  ⟨C5_codec_round_trip.1 NatModel "2024-01-01".data 5 (by decide) (by decide) (by decide),
   C5_codec_round_trip.2 NatModel ⟨"2024-01-01".data, 5⟩ (by decide) (by decide) (by decide)⟩

/-- C8: (line part) a log line whose split on " " has at least two
fields but whose value field fails to parse decodes to a reading
carrying the timestamp field and the zero-value float, instead of an
error; (scan part) the read of a file whose every scanned line contains
a space always succeeds with one reading per line — malformed values
never abort the scan. -/
theorem C8_malformed_value_decodes_to_zero :
    (∀ (M : FloatModel) (line : Str) (t v : Str) (rest : List Str),
      splitOnChar ' ' line = t :: v :: rest →
      M.parse v = none →
      decodeLine M line = some ⟨t, M.zero⟩)
    ∧
    (∀ (M : FloatModel) (env : Env) (fs : FS) (dataDir : Str) (sensorId : Nat)
        (sortF : List (Reading M.F) → List (Reading M.F)) (content : Str),
      env.openRead (filename dataDir sensorId) = none →
      fs (filename dataDir sensorId) = some content →
      (∀ l ∈ scannerLines content, ' ' ∈ l) →
      (∀ l, (sortF l).Perm l) →
      ∃ res : Readings M.F,
        read M env fs dataDir sensorId sortF = some res
        ∧ res.Readings.length = (scannerLines content).length) := by
  constructor
  · intro M line t v rest hsplit hp
    unfold decodeLine
    rw [hsplit]
    show some (⟨t, (M.parse v).getD M.zero⟩ : Reading M.F) = some ⟨t, M.zero⟩
    rw [hp]
    rfl
  · intro M env fs dataDir sensorId sortF content ho hc hsp hperm
    unfold read
    rw [ho, hc]
    show ∃ res : Readings M.F,
      (match decodeLines M (scannerLines content) with
        | none => none
        | some rs => some (⟨sensorId, sortF rs⟩ : Readings M.F)) = some res
      ∧ res.Readings.length = (scannerLines content).length
    cases hdec : decodeLines M (scannerLines content) with
    | none =>
      exfalso
      rcases (decodeLines_eq_none_iff _).mp hdec with ⟨l, hl, hn⟩
      exact ((decodeLine_eq_none_iff l).mp hn) (hsp l hl)
    | some rs =>
      refine ⟨⟨sensorId, sortF rs⟩, rfl, ?_⟩
      rw [(hperm rs).length_eq]
      exact decodeLines_length _ rs hdec

/-- C8 witness: the file "2024-01-03 zzz\n2024-01-01 7\n" has an
unparsable value on its first line; the line decodes to
{"2024-01-03", 0} and the read still returns one reading per line. -/
theorem C8_witness :
    (decodeLine NatModel "2024-01-03 zzz".data = some ⟨"2024-01-03".data, NatModel.zero⟩)
    ∧ (∃ res : Readings Nat,
        read NatModel noErr
          (updateFS (fun _ => none) (filename "data/".data 2)
            "2024-01-03 zzz\n2024-01-01 7\n".data)
          "data/".data 2 sortTs = some res
        ∧ res.Readings.length
            = (scannerLines "2024-01-03 zzz\n2024-01-01 7\n".data).length) :=
  ⟨C8_malformed_value_decodes_to_zero.1 NatModel "2024-01-03 zzz".data
      "2024-01-03".data "zzz".data [] (by decide) (by decide),
   C8_malformed_value_decodes_to_zero.2 NatModel noErr
      (updateFS (fun _ => none) (filename "data/".data 2)
        "2024-01-03 zzz\n2024-01-01 7\n".data)
      "data/".data 2 sortTs "2024-01-03 zzz\n2024-01-01 7\n".data
      rfl (by decide) (by decide) sortTs_perm⟩

/-- C9 counterexample: a file whose content is one bare newline contains
a single empty scanned line.  The claim says such a file "does not cause
the read to fail"; but the scan loop splits "" on " " into a single
field and indexes `split[1]`, out of range — the read crashes (modeled
as `none`) instead of returning a batch. -/
theorem C9_counterexample :
    read NatModel noErr
      (updateFS (fun _ => none) (filename "data/".data 1) "\n".data)
      "data/".data 1 sortTs = none := by
  decide

/-- C9 (amended): the scan of `read` is total only on contents whose
every scanned line contains a space; under a successful open of an
existing file, the read faults (the worker goroutine panics on the
out-of-range `split[1]`) precisely when some scanned line — an empty
line included — contains no space, and succeeds otherwise (a malformed
value alone never faults, per the zero-value fallback). -/
theorem C9_amended_read_faults_iff_spaceless_line (M : FloatModel) (env : Env) (fs : FS)
    (dataDir : Str) (sensorId : Nat)
    (sortF : List (Reading M.F) → List (Reading M.F)) (content : Str)
    (ho : env.openRead (filename dataDir sensorId) = none)
    (hc : fs (filename dataDir sensorId) = some content) :
    read M env fs dataDir sensorId sortF = none
      ↔ ∃ l ∈ scannerLines content, ' ' ∉ l := by
  unfold read
  rw [ho, hc]
  show (match decodeLines M (scannerLines content) with
    | none => none
    | some rs => some (⟨sensorId, sortF rs⟩ : Readings M.F)) = none
    ↔ ∃ l ∈ scannerLines content, ' ' ∉ l
  cases hdec : decodeLines M (scannerLines content) with
  | none =>
    constructor
    · intro _
      rcases (decodeLines_eq_none_iff _).mp hdec with ⟨l, hl, hn⟩
      exact ⟨l, hl, (decodeLine_eq_none_iff l).mp hn⟩
    · intro _
      rfl
  | some rs =>
    constructor
    · intro hcontr
      exact absurd hcontr (by simp)
    · rintro ⟨l, hl, hsp⟩
      have hx : decodeLines M (scannerLines content) = none :=
        (decodeLines_eq_none_iff _).mpr ⟨l, hl, (decodeLine_eq_none_iff l).mpr hsp⟩
      rw [hdec] at hx
      exact absurd hx (by simp)

/-- C9 witness: on the one-newline file of the counterexample, the
amended characterization holds: the read faults because the single
scanned line (the empty line) has no space. -/
theorem C9_witness :
    read NatModel noErr
      (updateFS (fun _ => none) (filename "data/".data 3) "\n".data)
      "data/".data 3 sortTs = none
      ↔ ∃ l ∈ scannerLines "\n".data, ' ' ∉ l :=
  C9_amended_read_faults_iff_spaceless_line NatModel noErr
    (updateFS (fun _ => none) (filename "data/".data 3) "\n".data)
    "data/".data 3 sortTs "\n".data rfl (by decide)

end Sensor
